import Mathlib

/-!
Verification development for the Gizmoplug component-selection engine.

The definitions below are a shallow embedding of the JavaScript class
`ComponentSelectionPlugin` (file `src/unnamed/part_002`) and of the
face-selection inversion of `PolyModeMask` / `PolyModePlugin`
(file `src/polimode.js`).

Modelling conventions:
- JavaScript `Float32Array` slots hold either a numeric value (modelled as a
  rational) or `NaN` (what an `undefined` read coerces to when stored into a
  typed array).  The type `FVal` captures these two cases; comparisons with
  `NaN` are false exactly as in IEEE semantics, which the definitions mirror
  by case analysis.
- A JavaScript `Set` is modelled as an insertion-ordered duplicate-free list:
  `sInsert` appends when absent, iteration is list order, and
  `values().next().value` is the head.
- A JavaScript `Map` is modelled as an insertion-ordered association list.
- Out-of-range typed-array reads yield `undefined`; where the source lets the
  resulting `NaN` silently disable an effect, the model uses `Option` reads;
  where the source's loop bounds make the read in range for well-formed data,
  the model uses `getD`.
- Out-of-range typed-array writes are silently dropped, exactly like
  `List.set` past the end of the list.
- The only loop without a structural bound is the flood-fill `while` loop of
  `selectLinked`; it is run on fuel `dfsFuel`, which exceeds the number of
  iterations the source loop can perform on its mesh (each popped element was
  inserted into the visited set exactly once, and the visited set only holds
  the seed plus values drawn from the finite adjacency arrays).
-/

/-- A value stored in a `Float32Array` slot: a rational number, or `NaN`. -/
inductive FVal where
  | num (q : ℚ)
  | nan
deriving DecidableEq, Repr

/-- Source `clamp01`: `v < 0 ? 0 : (v > 1 ? 1 : v)`.  Both comparisons are
false on `NaN`, so `NaN` is returned unchanged. -/
def clamp01 : FVal → FVal
  | .num q => if q < 0 then .num 0 else if 1 < q then .num 1 else .num q
  | .nan => .nan

/-- The active component mode of the plugin (`this._mode`). -/
inductive Mode where
  | VERTEX
  | EDGE
  | FACE
deriving DecidableEq, Repr

/-- Selection operator applied by a pick (source strings
`'ADD' | 'SUB' | 'TOGGLE' | 'REPLACE'`). -/
inductive PickOp where
  | ADD
  | SUB
  | TOGGLE
  | REPLACE
deriving DecidableEq, Repr

/-- The host mesh data consumed by the plugin: vertex/face counts, the quad
face buffer (stride 4, fourth slot `4294967295` for triangles), flattened
vertex positions (stride 3) and the one-ring adjacency arrays
(`getVerticesRingVertStartCount`, stride 2, and `getVerticesRingVert`). -/
structure Mesh where
  nbVertices : ℕ
  nbFaces : ℕ
  faces : List ℕ
  vertices : List ℚ
  ringStartCount : List ℕ
  ringVert : List ℕ
deriving DecidableEq, Repr

/-- `Utils.TRI_INDEX`: the sentinel marking the unused fourth slot of a
triangle in the quad-stride face buffer. -/
def TRI_INDEX : ℕ := 4294967295

/-- Source `edgeKey(a, b)`: the canonical unordered representation of an
edge, `a < b ? a_b : b_a`. -/
def edgeKey (a b : ℕ) : ℕ × ℕ := if a < b then (a, b) else (b, a)

/-- Insert into a list modelling a JavaScript `Set`: append when absent. -/
def sInsert [DecidableEq α] (l : List α) (x : α) : List α :=
  if x ∈ l then l else l ++ [x]

/-- Lookup in an insertion-ordered association list modelling a `Map`. -/
def mapGet [DecidableEq κ] (m : List (κ × α)) (k : κ) : Option α :=
  (m.find? (fun e => decide (e.1 = k))).map (fun e => e.2)

/-- `if (!m.has(k)) m.set(k, []); m.get(k).push(f)` on an association list:
append `f` to the entry of `k`, creating the entry at the end if absent. -/
def mapPush [DecidableEq κ] (m : List (κ × List α)) (k : κ) (f : α) :
    List (κ × List α) :=
  if (m.find? (fun e => decide (e.1 = k))).isSome then
    m.map (fun e => if e.1 = k then (e.1, e.2 ++ [f]) else e)
  else m ++ [(k, [f])]

/-- `if (!m.has(k)) m.set(k, v)` on an association list. -/
def mapSetIfAbsent [DecidableEq κ] (m : List (κ × α)) (k : κ) (v : α) :
    List (κ × α) :=
  if (m.find? (fun e => decide (e.1 = k))).isSome then m else m ++ [(k, v)]

/-- Corner ids of face `f` as read by `_cacheForMesh`: slots `4f .. 4f+3` of
the face buffer, the fourth kept only when it is not the triangle sentinel.
`_cacheForMesh` only visits `f < nbFaces`, where the reads are in range for a
well-formed buffer, so the reads are modelled with `getD`. -/
def faceIds (mesh : Mesh) (f : ℕ) : List ℕ :=
  let base := 4 * f
  let v3 := mesh.faces.getD (base + 3) 0
  if v3 ≠ TRI_INDEX then
    [mesh.faces.getD base 0, mesh.faces.getD (base + 1) 0,
     mesh.faces.getD (base + 2) 0, v3]
  else
    [mesh.faces.getD base 0, mesh.faces.getD (base + 1) 0,
     mesh.faces.getD (base + 2) 0]

/-- The cyclic successor pairs `(ids[i], ids[(i+1) % ids.length])` giving the
boundary edges of a face. -/
def cyclicPairs (ids : List ℕ) : List (ℕ × ℕ) :=
  (List.range ids.length).map
    (fun i => (ids.getD i 0, ids.getD ((i + 1) % ids.length) 0))

/-- The derived topology cache built by `_cacheForMesh`: edge key to incident
faces, edge key to its endpoint pair `[min, max]`, and the ordered list of
edge keys of each face. -/
structure TopoCache where
  edgeToFaces : List ((ℕ × ℕ) × List ℕ)
  edgeToVerts : List ((ℕ × ℕ) × (ℕ × ℕ))
  faceEdges : List (List (ℕ × ℕ))
deriving DecidableEq, Repr

/-- Source `_cacheForMesh`: one pass over the faces, recording for every
boundary edge the incident face and the endpoint pair, and for every face its
edge-key list. -/
def buildCache (mesh : Mesh) : TopoCache :=
  (List.range mesh.nbFaces).foldl
    (fun c f =>
      let ids := faceIds mesh f
      let step := (cyclicPairs ids).foldl
        (fun (p : TopoCache × List (ℕ × ℕ)) ab =>
          let ek := edgeKey ab.1 ab.2
          ({ edgeToFaces := mapPush p.1.edgeToFaces ek f,
             edgeToVerts := mapSetIfAbsent p.1.edgeToVerts ek
               (min ab.1 ab.2, max ab.1 ab.2),
             faceEdges := p.1.faceEdges }, p.2 ++ [ek]))
        (c, [])
      { step.1 with faceEdges := step.1.faceEdges ++ [step.2] })
    ⟨[], [], []⟩

/-- The plugin's mutable state: activity flag, mode, the three selection
sets, the mask snapshot, and the per-vertex scalar (mask) channel
`materials[3*i+2]` of the current mesh, modelled as its own list. -/
structure PState where
  active : Bool
  mode : Mode
  selVerts : List ℕ
  selFaces : List ℕ
  selEdges : List (ℕ × ℕ)
  maskSnapshot : Option (List FVal)
  channel : List FVal
deriving DecidableEq, Repr

/-- The corner vertices whose mask slot `_applySelectionToMask` sets to 1 for
a selected face `f`: the three direct reads plus the fourth slot when it is
not the triangle sentinel; reads past the buffer yield `undefined`, whose
write is dropped, hence `reduceOption`. -/
def maskCorners (mesh : Mesh) (f : ℕ) : List ℕ :=
  let base := 4 * f
  let d := mesh.faces.get? (base + 3)
  ([mesh.faces.get? base, mesh.faces.get? (base + 1), mesh.faces.get? (base + 2)]
    ++ if d ≠ some TRI_INDEX then [d] else []).reduceOption

/-- The endpoint vertices whose mask slot `_applySelectionToMask` sets to 1
for a selected edge key: the cached endpoint pair, or nothing when the key is
absent from the cache (`if (!ab) continue`). -/
def edgeLightVerts (c : TopoCache) (ek : ℕ × ℕ) : List ℕ :=
  match mapGet c.edgeToVerts ek with
  | none => []
  | some ab => [ab.1, ab.2]

/-- Source `_applySelectionToMask`: zero the mask slot of every vertex below
`nbVertices`, then set to 1 the slots driven by the active mode's selection.
Only the channel changes. -/
def applySelectionToMask (mesh : Mesh) (st : PState) : PState :=
  let cache := buildCache mesh
  let c0 := (List.range mesh.nbVertices).foldl
    (fun c i => c.set i (FVal.num 0)) st.channel
  let c1 :=
    match st.mode with
    | .VERTEX => st.selVerts.foldl (fun c v => c.set v (FVal.num 1)) c0
    | .FACE => st.selFaces.foldl
        (fun c f => (maskCorners mesh f).foldl
          (fun c v => c.set v (FVal.num 1)) c) c0
    | .EDGE => st.selEdges.foldl
        (fun c ek => (edgeLightVerts cache ek).foldl
          (fun c v => c.set v (FVal.num 1)) c) c0
  { st with channel := c1 }

/-- Source `_snapshotMask`: copy mask slots `0 .. nbVertices-1`, clamping
each to `[0,1]`; a read past the channel is `undefined` and is stored into
the `Float32Array` snapshot as `NaN`. -/
def snapshotMask (mesh : Mesh) (chan : List FVal) : List FVal :=
  (List.range mesh.nbVertices).map
    (fun i => clamp01 ((chan.get? i).getD FVal.nan))

/-- Source `clearSelection()` with its default `updateMask = true`: empty the
three sets and resynchronize the mask. -/
def clearSelection (mesh : Mesh) (st : PState) : PState :=
  applySelectionToMask mesh
    { st with selVerts := [], selFaces := [], selEdges := [] }

/-- Source `activate()`: a no-op when already active; otherwise set the
flag, snapshot the mask channel, and clear the selection (which rewrites the
channel). -/
def activate (mesh : Mesh) (st : PState) : PState :=
  if st.active then st
  else clearSelection mesh
    { st with active := true,
              maskSnapshot := some (snapshotMask mesh st.channel) }

/-- Source `commitMask()`: forget the snapshot. -/
def commitMask (st : PState) : PState :=
  { st with maskSnapshot := none }

/-- Source `setMode(mode)`. -/
def setMode (m : Mode) (st : PState) : PState :=
  { st with mode := m }

/-- Source `restoreSnapshot()`: when a snapshot exists, write
`snapshot[i]` into the mask slot of every `i` below the CURRENT vertex
count; a read past the snapshot is `undefined` and is stored as `NaN`. -/
def restoreSnapshot (mesh : Mesh) (st : PState) : PState :=
  match st.maskSnapshot with
  | none => st
  | some snap =>
      { st with channel := ((List.range mesh.nbVertices).foldl
          (fun c i => c.set i ((snap.get? i).getD FVal.nan)) st.channel) }

/-- The one-ring vertex neighbours of `v` read from the mesh ring arrays;
an out-of-range read of the count slot yields `undefined`, making the inner
loop run zero times, which `getD` with default 0 reproduces. -/
def vertexNeighbors (mesh : Mesh) (v : ℕ) : List ℕ :=
  let start := mesh.ringStartCount.getD (2 * v) 0
  let count := mesh.ringStartCount.getD (2 * v + 1) 0
  (List.range count).map (fun i => mesh.ringVert.getD (start + i) 0)

/-- Faces adjacent to `f` through a shared boundary edge, in source
iteration order (`_faceEdges[f] || []`, then `_edgeToFaces.get(ek)`). -/
def faceNeighbors (c : TopoCache) (f : ℕ) : List ℕ :=
  ((c.faceEdges.getD f []).map
    (fun ek => (mapGet c.edgeToFaces ek).getD [])).flatten

/-- The vertex-to-incident-edges index `v2e` built on the fly by
`selectLinked` in EDGE mode from every entry of `_edgeToVerts`. -/
def buildV2E (c : TopoCache) : List (ℕ × List (ℕ × ℕ)) :=
  c.edgeToVerts.foldl
    (fun m e =>
      let pushTo := fun (m : List (ℕ × List (ℕ × ℕ))) v => mapPush m v e.1
      pushTo (pushTo m e.2.1) e.2.2)
    []

/-- Edges adjacent to `ek` through a shared endpoint:
`(v2e.get(a) || []).concat(v2e.get(b) || [])`. -/
def edgeNeighbors (c : TopoCache) (v2e : List (ℕ × List (ℕ × ℕ)))
    (ek : ℕ × ℕ) : List (ℕ × ℕ) :=
  match mapGet c.edgeToVerts ek with
  | none => []
  | some ab => ((mapGet v2e ab.1).getD []) ++ ((mapGet v2e ab.2).getD [])

/-- One pass of the flood-fill inner `for` loop: push every not-yet-visited
neighbour, appending it to the visited set and stacking it. -/
def dfsPushAll [DecidableEq α] (ns : List α) (p : List α × List α) :
    List α × List α :=
  ns.foldl (fun q n => if n ∈ q.1 then q else (q.1 ++ [n], n :: q.2)) p

/-- The flood-fill `while (stack.length)` loop of `selectLinked`, run on
fuel.  The stack head is the array top (`pop`/`push` act on it), so the model
pops and pushes in the source order. -/
def dfsRun [DecidableEq α] (nb : α → List α) : ℕ → List α → List α → List α
  | 0, visited, _ => visited
  | _ + 1, visited, [] => visited
  | fuel + 1, visited, v :: rest =>
      let p := dfsPushAll (nb v) (visited, rest)
      dfsRun nb fuel p.1 p.2

/-- Fuel that strictly exceeds the number of iterations the source loop can
perform: every iteration pops an element inserted exactly once into the
visited set, and the visited set holds only the seed plus values drawn from
the ring array (VERTEX) or the cache built from at most `4 * nbFaces` edge
records (FACE and EDGE). -/
def dfsFuel (mesh : Mesh) : ℕ :=
  mesh.ringVert.length + 4 * mesh.nbFaces + mesh.nbVertices + 2

/-- Source `selectLinked()`: a no-op when inactive or when the active mode's
set is empty; otherwise replace the active set by the flood fill from the
set's first element and resynchronize the mask.  In EDGE mode the source
destructures `_edgeToVerts.get(seed)`, which throws on a key absent from the
cache, leaving the state unchanged; the `none` branch models that exit. -/
def selectLinked (mesh : Mesh) (st : PState) : PState :=
  if st.active then
    let cache := buildCache mesh
    match st.mode with
    | .VERTEX =>
        match st.selVerts with
        | [] => st
        | seed :: _ =>
            applySelectionToMask mesh
              { st with selVerts :=
                  (dfsRun (vertexNeighbors mesh) (dfsFuel mesh) [seed] [seed]) }
    | .FACE =>
        match st.selFaces with
        | [] => st
        | seed :: _ =>
            applySelectionToMask mesh
              { st with selFaces :=
                  (dfsRun (faceNeighbors cache) (dfsFuel mesh) [seed] [seed]) }
    | .EDGE =>
        match st.selEdges with
        | [] => st
        | seed :: _ =>
            match mapGet cache.edgeToVerts seed with
            | none => st
            | some _ =>
                let v2e := buildV2E cache
                applySelectionToMask mesh
                  { st with selEdges :=
                      (dfsRun (edgeNeighbors cache v2e) (dfsFuel mesh)
                        [seed] [seed]) }
  else st

/-- Source `grow()`: union the active set with the one-ring neighbours of
its elements and resynchronize the mask.  In EDGE mode the source
destructures `_edgeToVerts.get(ek)` for every selected key before any state
is written; a missing key throws, leaving the state unchanged, which the
`all`-guard models. -/
def grow (mesh : Mesh) (st : PState) : PState :=
  if st.active then
    let cache := buildCache mesh
    match st.mode with
    | .VERTEX =>
        let add := st.selVerts.foldl
          (fun acc v => (vertexNeighbors mesh v).foldl sInsert acc)
          st.selVerts
        applySelectionToMask mesh { st with selVerts := add }
    | .FACE =>
        let add := st.selFaces.foldl
          (fun acc f => (faceNeighbors cache f).foldl sInsert acc)
          st.selFaces
        applySelectionToMask mesh { st with selFaces := add }
    | .EDGE =>
        if st.selEdges.all (fun ek => (mapGet cache.edgeToVerts ek).isSome) then
          let sv := st.selEdges.foldl
            (fun acc ek =>
              let ab := (mapGet cache.edgeToVerts ek).getD (0, 0)
              sInsert (sInsert acc ab.1) ab.2)
            ([] : List ℕ)
          let add := cache.edgeToVerts.foldl
            (fun acc e =>
              if e.1 ∈ acc then acc
              else if e.2.1 ∈ sv ∨ e.2.2 ∈ sv then acc ++ [e.1] else acc)
            st.selEdges
          applySelectionToMask mesh { st with selEdges := add }
        else st
  else st

/-- Source `shrink()`: keep only the elements all of whose neighbours are
selected (for edges: both endpoints of degree at least 2 in the selected
sub-graph) and resynchronize the mask.  The EDGE guard models the
destructuring throw exactly as in `grow`. -/
def shrink (mesh : Mesh) (st : PState) : PState :=
  if st.active then
    let cache := buildCache mesh
    match st.mode with
    | .VERTEX =>
        let keep := st.selVerts.foldl
          (fun acc v =>
            if (vertexNeighbors mesh v).any
                (fun n => !(decide (n ∈ st.selVerts))) then acc
            else sInsert acc v)
          []
        applySelectionToMask mesh { st with selVerts := keep }
    | .FACE =>
        let keep := st.selFaces.foldl
          (fun acc f =>
            if (cache.faceEdges.getD f []).any
                (fun ek => ((mapGet cache.edgeToFaces ek).getD []).any
                  (fun nf => !(decide (nf ∈ st.selFaces)))) then acc
            else sInsert acc f)
          []
        applySelectionToMask mesh { st with selFaces := keep }
    | .EDGE =>
        if st.selEdges.all (fun ek => (mapGet cache.edgeToVerts ek).isSome) then
          let deg := fun v => st.selEdges.foldl
            (fun n ek =>
              let ab := (mapGet cache.edgeToVerts ek).getD (0, 0)
              n + (if ab.1 = v then 1 else 0) + (if ab.2 = v then 1 else 0))
            (0 : ℕ)
          let keep := st.selEdges.foldl
            (fun acc ek =>
              let ab := (mapGet cache.edgeToVerts ek).getD (0, 0)
              if 2 ≤ deg ab.1 ∧ 2 ≤ deg ab.2 then sInsert acc ek else acc)
            []
          applySelectionToMask mesh { st with selEdges := keep }
        else st
  else st

/-- Source `_computeOp(e)`: derive the pick operator from the modifier keys
of the mouse event (and the platform flag for the Ctrl/Cmd distinction). -/
structure ModKeys where
  ctrlKey : Bool
  metaKey : Bool
  altKey : Bool
  shiftKey : Bool
deriving DecidableEq, Repr

/-- Source `_computeOp`: `sub` when (meta on mac / ctrl elsewhere) combines
with alt, else SUB on ctrl or meta, else ADD on shift, else TOGGLE. -/
def computeOp (isMac : Bool) (e : ModKeys) : PickOp :=
  let sub := if isMac then e.metaKey && e.altKey else e.ctrlKey && e.altKey
  if sub then .SUB
  else if e.ctrlKey || e.metaKey then .SUB
  else if e.shiftKey then .ADD
  else .TOGGLE

/-- The position of vertex `v`, when all three coordinate reads are in
range; a missing coordinate makes every distance computed from it `NaN`,
which the pick loops treat exactly like `none`. -/
def vertPos (mesh : Mesh) (v : ℕ) : Option (ℚ × ℚ × ℚ) :=
  match mesh.vertices.get? (3 * v), mesh.vertices.get? (3 * v + 1),
      mesh.vertices.get? (3 * v + 2) with
  | some x, some y, some z => some (x, y, z)
  | _, _, _ => none

/-- Squared Euclidean distance `dx*dx + dy*dy + dz*dz`. -/
def sqDist3 (p q : ℚ × ℚ × ℚ) : ℚ :=
  (p.1 - q.1) * (p.1 - q.1) + (p.2.1 - q.2.1) * (p.2.1 - q.2.1)
    + (p.2.2 - q.2.2) * (p.2.2 - q.2.2)

/-- Source `_pointSegDist2(p, a, b)`: squared distance from `p` to segment
`[a, b]` by clamped parametric projection, with the `1e-20` degeneracy
guard. -/
def pointSegDist2 (p a b : ℚ × ℚ × ℚ) : ℚ :=
  let ab := (b.1 - a.1, b.2.1 - a.2.1, b.2.2 - a.2.2)
  let ap := (p.1 - a.1, p.2.1 - a.2.1, p.2.2 - a.2.2)
  let ab2 := ab.1 * ab.1 + ab.2.1 * ab.2.1 + ab.2.2 * ab.2.2
  if ab2 ≤ 1 / 10 ^ 20 then sqDist3 p a
  else
    let t0 := (ap.1 * ab.1 + ap.2.1 * ab.2.1 + ap.2.2 * ab.2.2) / ab2
    let t := if t0 < 0 then 0 else if 1 < t0 then 1 else t0
    sqDist3 p (a.1 + ab.1 * t, a.2.1 + ab.2.1 * t, a.2.2 + ab.2.2 * t)

/-- Corner slots of face `faceId` as read by `_nearestVertexInFace` and
`_nearestEdgeInFace`: the three direct reads, plus the fourth slot unless it
is the triangle sentinel (an `undefined` read also passes the sentinel test
and is pushed). -/
def cornerIdsOpt (mesh : Mesh) (faceId : ℕ) : List (Option ℕ) :=
  let base := 4 * faceId
  let i3 := mesh.faces.get? (base + 3)
  [mesh.faces.get? base, mesh.faces.get? (base + 1), mesh.faces.get? (base + 2)]
    ++ if i3 ≠ some TRI_INDEX then [i3] else []

/-- One iteration of the `_nearestVertexInFace` loop body: keep the
strictly closest corner seen so far; a corner or coordinate read that is
`undefined` produces a `NaN` distance, which never beats the running
minimum (`none` keeps `best`). -/
def nearestVertexStep (mesh : Mesh) (inter : ℚ × ℚ × ℚ)
    (best : Option (ℕ × ℚ)) (v? : Option ℕ) : Option (ℕ × ℚ) :=
  match v? with
  | none => best
  | some v =>
      match vertPos mesh v with
      | none => best
      | some p =>
          let d := sqDist3 p inter
          match best with
          | none => some (v, d)
          | some bd => if d < bd.2 then some (v, d) else best

/-- Source `_nearestVertexInFace`: fold the loop body over the corner
slots; `none` overall corresponds to the source returning `-1`. -/
def nearestVertexInFace (mesh : Mesh) (faceId : ℕ) (inter : ℚ × ℚ × ℚ) :
    Option ℕ :=
  ((cornerIdsOpt mesh faceId).foldl (nearestVertexStep mesh inter)
    none).map (fun x => x.1)

/-- The cyclic corner pairs enumerated by `_nearestEdgeInFace`. -/
def pickEdgesOpt (ids : List (Option ℕ)) : List (Option ℕ × Option ℕ) :=
  (List.range ids.length).map
    (fun i => (ids.getD i none, ids.getD ((i + 1) % ids.length) none))

/-- Source `_nearestEdgeInFace`: fold over the boundary edges keeping the
key of the strictly closest segment; `NaN` distances (from `undefined`
reads) never update the minimum.  `none` corresponds to the source
returning `null`. -/
def nearestEdgeInFace (mesh : Mesh) (faceId : ℕ) (inter : ℚ × ℚ × ℚ) :
    Option (ℕ × ℕ) :=
  ((pickEdgesOpt (cornerIdsOpt mesh faceId)).foldl
    (fun (best : Option ((ℕ × ℕ) × ℚ)) e =>
      match e.1, e.2 with
      | some a, some b =>
          match vertPos mesh a, vertPos mesh b with
          | some pa, some pb =>
              let d := pointSegDist2 inter pa pb
              match best with
              | none => some (edgeKey a b, d)
              | some bd => if d < bd.2 then some (edgeKey a b, d) else best
          | _, _ => best
      | _, _ => best)
    none).map (fun x => x.1)

/-- Apply a pick operator to a set modelled as an insertion-ordered list:
ADD inserts, SUB deletes, REPLACE clears then toggles, TOGGLE flips
membership — exactly the branch structure of `_applyPick`. -/
def opApply [DecidableEq α] (op : PickOp) (s : List α) (x : α) : List α :=
  match op with
  | .ADD => sInsert s x
  | .SUB => s.erase x
  | _ =>
      let s0 := if op = .REPLACE then [] else s
      if x ∈ s0 then s0.erase x else sInsert s0 x

/-- Source `_applyPick(faceId, inter, op)`: resolve the picked element for
the active mode (face id directly, nearest corner vertex, or nearest
boundary edge), apply the operator to the active set, and resynchronize the
mask; an unresolved vertex (`-1`) or edge (`null`) returns without any state
change. -/
def applyPick (mesh : Mesh) (faceId : ℕ) (inter : ℚ × ℚ × ℚ) (op : PickOp)
    (st : PState) : PState :=
  match st.mode with
  | .FACE =>
      applySelectionToMask mesh
        { st with selFaces := opApply op st.selFaces faceId }
  | .VERTEX =>
      match nearestVertexInFace mesh faceId inter with
      | none => st
      | some vid =>
          applySelectionToMask mesh
            { st with selVerts := opApply op st.selVerts vid }
  | .EDGE =>
      match nearestEdgeInFace mesh faceId inter with
      | none => st
      | some ek =>
          applySelectionToMask mesh
            { st with selEdges := opApply op st.selEdges ek }

/-- A selection mutation: one of the state-changing entry points available
between activation and restore (mode switch, clear, the three topological
operators, and a single-point pick). -/
inductive Mutation where
  | setModeM (m : Mode)
  | clearM
  | growM
  | shrinkM
  | selectLinkedM
  | pickM (faceId : ℕ) (inter : ℚ × ℚ × ℚ) (op : PickOp)
deriving DecidableEq, Repr

/-- Run one mutation against the plugin state. -/
def applyMutation (mesh : Mesh) (st : PState) : Mutation → PState
  | .setModeM m => setMode m st
  | .clearM => clearSelection mesh st
  | .growM => grow mesh st
  | .shrinkM => shrink mesh st
  | .selectLinkedM => selectLinked mesh st
  | .pickM faceId inter op => applyPick mesh faceId inter op st

/-- Run a sequence of mutations in order. -/
def applyMutations (mesh : Mesh) (ms : List Mutation) (st : PState) : PState :=
  ms.foldl (applyMutation mesh) st

/-- Source `_invertSelection` of `PolyModePlugin` in `src/polimode.js`
(and the identical `Invertir Selección` action of `PolyModeMask`): the new
selection collects every face index below `nbFaces` that is not currently
selected. -/
def invertSelection (nbFaces : ℕ) (sel : Finset ℕ) : Finset ℕ :=
  (Finset.range nbFaces).filter (fun i => i ∉ sel)

/-! ### Generic list lemmas used throughout the development -/

/-- `List.set` seen through `get?`, with its silent-drop behaviour past the
end of the list folded into the condition. -/
theorem get_set_if (l : List α) (n i : ℕ) (x : α) :
    (l.set n x).get? i = if n = i ∧ i < l.length then some x else l.get? i := by
  by_cases hni : n = i
  · subst hni
    by_cases hlt : n < l.length
    · simp [hlt, List.get?_set_eq_of_lt x hlt]
    · rw [List.set_eq_of_length_le (by omega)]
      simp [hlt]
  · simp [hni, List.get?_set_ne x l hni]

/-- A fold whose step preserves list length preserves list length. -/
theorem foldl_length_inv (f : List α → β → List α)
    (h : ∀ c b, (f c b).length = c.length) :
    ∀ (l : List β) (c : List α), (l.foldl f c).length = c.length := by
  intro l
  induction l with
  | nil => intro c; rfl
  | cons b t ih => intro c; rw [List.foldl_cons, ih, h]

/-- Writing `g i` at every index `i < n`, seen through `get?`. -/
theorem foldl_range_set_get (g : ℕ → α) :
    ∀ (n : ℕ) (c : List α) (k : ℕ),
      ((List.range n).foldl (fun c i => c.set i (g i)) c).get? k =
        if k < n ∧ k < c.length then some (g k) else c.get? k := by
  intro n
  induction n with
  | zero => intro c k; simp
  | succ n ih =>
      intro c k
      rw [List.range_succ, List.foldl_append]
      simp only [List.foldl_cons, List.foldl_nil]
      have hlen : ((List.range n).foldl (fun c i => c.set i (g i)) c).length
          = c.length :=
        foldl_length_inv _ (fun c b => List.length_set c b _) _ _
      rw [get_set_if, hlen, ih]
      by_cases hk : k = n
      · subst hk
        by_cases hl : k < c.length <;> simp [hl]
      · have h2 : k < n + 1 ↔ k < n := by omega
        simp [Ne.symm hk, h2]

/-- Length is preserved by the range-indexed write fold. -/
theorem foldl_range_set_length (g : ℕ → α) (n : ℕ) (c : List α) :
    ((List.range n).foldl (fun c i => c.set i (g i)) c).length = c.length :=
  foldl_length_inv _ (fun c b => List.length_set c b _) _ _

/-- Setting the mask slot of every vertex in a list to 1, seen through
`get?`: a slot reads 1 exactly when its index is listed and in range. -/
theorem foldl_set_one_get (l : List ℕ) :
    ∀ (c : List FVal) (k : ℕ),
      (l.foldl (fun c v => c.set v (FVal.num 1)) c).get? k =
        if k ∈ l ∧ k < c.length then some (FVal.num 1) else c.get? k := by
  induction l with
  | nil => intro c k; simp
  | cons v t ih =>
      intro c k
      rw [List.foldl_cons, ih, List.length_set, get_set_if]
      by_cases hkt : k ∈ t
      · by_cases hl : k < c.length <;> simp [hkt, hl]
      · by_cases hkv : v = k
        · subst hkv
          by_cases hl : v < c.length <;> simp [hkt, hl]
        · have hmem : ¬ k ∈ v :: t := by
            intro hmem
            rcases List.mem_cons.mp hmem with h | h
            · exact hkv h.symm
            · exact hkt h
          simp [hkt, hkv, hmem]

/-- Length is preserved by the set-to-one fold. -/
theorem foldl_set_one_length (l : List ℕ) (c : List FVal) :
    (l.foldl (fun c v => c.set v (FVal.num 1)) c).length = c.length :=
  foldl_length_inv _ (fun c b => List.length_set c b _) _ _

/-- The nested fold lighting, for every selected element, all mask slots it
drives, seen through `get?`. -/
theorem foldl_light_get (g : γ → List ℕ) (l : List γ) :
    ∀ (c : List FVal) (k : ℕ),
      (l.foldl (fun c x => (g x).foldl (fun c v => c.set v (FVal.num 1)) c)
          c).get? k =
        if (∃ x ∈ l, k ∈ g x) ∧ k < c.length then some (FVal.num 1)
        else c.get? k := by
  induction l with
  | nil => intro c k; simp
  | cons x t ih =>
      intro c k
      rw [List.foldl_cons, ih, foldl_set_one_length, foldl_set_one_get]
      by_cases hkt : ∃ y ∈ t, k ∈ g y
      · by_cases hl : k < c.length <;> simp [hkt, hl]
      · by_cases hkx : k ∈ g x
        · by_cases hl : k < c.length <;> simp [hkt, hkx, hl]
        · have : ¬ ∃ y ∈ x :: t, k ∈ g y := by
            simp only [List.mem_cons]
            rintro ⟨y, hy | hy, hky⟩
            · exact hkx (hy ▸ hky)
            · exact hkt ⟨y, hy, hky⟩
          simp [hkt, hkx, this]

/-- Length is preserved by the nested lighting fold. -/
theorem foldl_light_length (g : γ → List ℕ) (l : List γ) (c : List FVal) :
    (l.foldl (fun c x => (g x).foldl (fun c v => c.set v (FVal.num 1)) c)
        c).length = c.length :=
  foldl_length_inv _ (fun c b => foldl_set_one_length _ c) _ _

/-! ### Structural facts about mask synchronization -/

/-- `_applySelectionToMask` leaves the activity flag unchanged. -/
@[simp] theorem applyMask_active (mesh : Mesh) (st : PState) :
    (applySelectionToMask mesh st).active = st.active := rfl

/-- `_applySelectionToMask` leaves the mode unchanged. -/
@[simp] theorem applyMask_mode (mesh : Mesh) (st : PState) :
    (applySelectionToMask mesh st).mode = st.mode := rfl

/-- `_applySelectionToMask` leaves the vertex selection unchanged. -/
@[simp] theorem applyMask_selVerts (mesh : Mesh) (st : PState) :
    (applySelectionToMask mesh st).selVerts = st.selVerts := rfl

/-- `_applySelectionToMask` leaves the face selection unchanged. -/
@[simp] theorem applyMask_selFaces (mesh : Mesh) (st : PState) :
    (applySelectionToMask mesh st).selFaces = st.selFaces := rfl

/-- `_applySelectionToMask` leaves the edge selection unchanged. -/
@[simp] theorem applyMask_selEdges (mesh : Mesh) (st : PState) :
    (applySelectionToMask mesh st).selEdges = st.selEdges := rfl

/-- `_applySelectionToMask` leaves the snapshot unchanged. -/
@[simp] theorem applyMask_maskSnapshot (mesh : Mesh) (st : PState) :
    (applySelectionToMask mesh st).maskSnapshot = st.maskSnapshot := rfl

/-- `_applySelectionToMask` preserves the channel length. -/
theorem applyMask_channel_length (mesh : Mesh) (st : PState) :
    (applySelectionToMask mesh st).channel.length = st.channel.length := by
  rcases st with ⟨act, mode, sv, sf, se, snap, ch⟩
  cases mode <;>
    simp only [applySelectionToMask] <;>
    first
      | rw [foldl_set_one_length, foldl_range_set_length]
      | rw [foldl_light_length, foldl_range_set_length]

/-- Zeroing every index below `n` of a channel of length `n` yields the
all-zero channel, whatever the starting contents. -/
theorem zero_fold_eq_replicate (c : List FVal) (n : ℕ) (h : c.length = n) :
    (List.range n).foldl (fun c i => c.set i (FVal.num 0)) c =
      List.replicate n (FVal.num 0) := by
  apply List.ext_get?
  intro k
  rw [show (fun (c : List FVal) i => c.set i (FVal.num 0)) =
        (fun c i => c.set i ((fun _ => FVal.num 0) i)) from rfl,
      foldl_range_set_get]
  by_cases hk : k < n
  · simp [hk, h, List.get?_eq_getElem?, List.getElem?_replicate]
  · have h1 : c.get? k = none := List.get?_len_le (by omega)
    have h2 : (List.replicate n (FVal.num 0)).get? k =
        none := List.get?_len_le (by simp; omega)
    rw [if_neg (by simp [hk]), h1, h2]

/-- Resynchronizing the mask twice is the same as doing it once: the zeroing
pass erases everything the first pass wrote (the channel keeps its length,
so for a channel of the mesh's vertex count every slot is rewritten), and
the lighting pass depends only on the (unchanged) selection sets. -/
theorem applyMask_idem (mesh : Mesh) (st : PState)
    (h : st.channel.length = mesh.nbVertices) :
    applySelectionToMask mesh (applySelectionToMask mesh st) =
      applySelectionToMask mesh st := by
  rcases st with ⟨act, mode, sv, sf, se, snap, ch⟩
  cases mode <;>
    simp only [applySelectionToMask] <;>
    rw [zero_fold_eq_replicate _ mesh.nbVertices
          (by first
                | rw [foldl_set_one_length, foldl_range_set_length]; exact h
                | rw [foldl_light_length, foldl_range_set_length]; exact h),
        zero_fold_eq_replicate _ mesh.nbVertices h]

/-! ### Structural facts about the flood fill -/

/-- The inner neighbour-push loop only appends to the visited set. -/
theorem dfsPushAll_extend [DecidableEq α] (ns : List α) :
    ∀ (p : List α × List α), ∃ t, (dfsPushAll ns p).1 = p.1 ++ t := by
  induction ns with
  | nil => intro p; exact ⟨[], by simp [dfsPushAll]⟩
  | cons n ns ih =>
      intro p
      rw [dfsPushAll, List.foldl_cons]
      by_cases hn : n ∈ p.1
      · obtain ⟨t, ht⟩ := ih p
        rw [dfsPushAll] at ht
        refine ⟨t, ?_⟩
        rw [if_pos hn]
        exact ht
      · obtain ⟨t, ht⟩ := ih (p.1 ++ [n], n :: p.2)
        rw [dfsPushAll] at ht
        refine ⟨[n] ++ t, ?_⟩
        rw [if_neg hn, ht]
        simp

/-- The flood-fill loop only appends to the visited set; in particular the
seed stays at the head. -/
theorem dfsRun_extend [DecidableEq α] (nb : α → List α) :
    ∀ (fuel : ℕ) (visited stack : List α),
      ∃ t, dfsRun nb fuel visited stack = visited ++ t := by
  intro fuel
  induction fuel with
  | zero => intro visited stack; exact ⟨[], by simp [dfsRun]⟩
  | succ fuel ih =>
      intro visited stack
      cases stack with
      | nil => exact ⟨[], by simp [dfsRun]⟩
      | cons v rest =>
          rw [dfsRun]
          obtain ⟨t1, ht1⟩ := dfsPushAll_extend (nb v) (visited, rest)
          obtain ⟨t2, ht2⟩ :=
            ih (dfsPushAll (nb v) (visited, rest)).1
              (dfsPushAll (nb v) (visited, rest)).2
          exact ⟨t1 ++ t2, by rw [ht2, ht1, List.append_assoc]⟩

/-- Replacing a field of a state by its own value is the identity. -/
theorem pstate_set_selVerts_self (s : PState) (v : List ℕ)
    (h : s.selVerts = v) : { s with selVerts := v } = s := by
  rcases s with ⟨act, mode, sv, sf, se, snap, ch⟩
  cases h
  rfl

/-- Replacing the face set of a state by its own value is the identity. -/
theorem pstate_set_selFaces_self (s : PState) (v : List ℕ)
    (h : s.selFaces = v) : { s with selFaces := v } = s := by
  rcases s with ⟨act, mode, sv, sf, se, snap, ch⟩
  cases h
  rfl

/-- Replacing the edge set of a state by its own value is the identity. -/
theorem pstate_set_selEdges_self (s : PState) (v : List (ℕ × ℕ))
    (h : s.selEdges = v) : { s with selEdges := v } = s := by
  rcases s with ⟨act, mode, sv, sf, se, snap, ch⟩
  cases h
  rfl

/-! ### Membership lemmas for the selection folds -/

/-- `sInsert` keeps every existing member. -/
theorem mem_sInsert_of_mem [DecidableEq α] {l : List α} {y : α} (x : α)
    (h : y ∈ l) : y ∈ sInsert l x := by
  rw [sInsert]
  by_cases hx : x ∈ l
  · simpa [hx]
  · simp [hx, h]

/-- `sInsert` produces no members beyond the old ones and the new element. -/
theorem mem_of_mem_sInsert [DecidableEq α] {l : List α} {x y : α}
    (h : y ∈ sInsert l x) : y ∈ l ∨ y = x := by
  rw [sInsert] at h
  by_cases hx : x ∈ l
  · rw [if_pos hx] at h
    exact Or.inl h
  · rw [if_neg hx] at h
    simpa using h

/-- A fold whose step never discards members of the accumulator never
discards members. -/
theorem foldl_mem_mono {f : List α → β → List α}
    (hf : ∀ acc b x, x ∈ acc → x ∈ f acc b) :
    ∀ (l : List β) (acc : List α) (x : α), x ∈ acc → x ∈ l.foldl f acc := by
  intro l
  induction l with
  | nil => intro acc x h; exact h
  | cons b t ih => intro acc x h; exact ih (f acc b) x (hf acc b x h)

/-- A fold from a sub-accumulator whose step either keeps the accumulator or
inserts the scanned element stays inside the scanned list plus the
accumulator's bound. -/
theorem foldl_sInsert_bounded [DecidableEq α] (S : List α)
    (step : List α → α → List α)
    (hstep : ∀ acc v, step acc v = acc ∨ step acc v = sInsert acc v) :
    ∀ (l acc : List α), (∀ x ∈ acc, x ∈ S) → (∀ v ∈ l, v ∈ S) →
      ∀ x ∈ l.foldl step acc, x ∈ S := by
  intro l
  induction l with
  | nil => intro acc hacc _ x hx; exact hacc x hx
  | cons v t ih =>
      intro acc hacc hl x hx
      rw [List.foldl_cons] at hx
      refine ih (step acc v) ?_ (fun w hw => hl w (List.mem_cons_of_mem v hw))
        x hx
      intro w hw
      rcases hstep acc v with he | he
      · exact hacc w (he ▸ hw)
      · rcases mem_of_mem_sInsert (he ▸ hw) with h | h
        · exact hacc w h
        · exact h ▸ hl v (List.mem_cons_self v t)



/-- C4: the selection after `grow()` contains the selection before it, in
every mode: the two inactive sets are unchanged, and the active set only
ever receives insertions starting from a copy of itself (when the EDGE
endpoint lookup throws, nothing changes at all). -/
theorem C4_grow_monotone (mesh : Mesh) (st : PState) :
    st.selVerts ⊆ (grow mesh st).selVerts ∧
      st.selFaces ⊆ (grow mesh st).selFaces ∧
      st.selEdges ⊆ (grow mesh st).selEdges := by
  rcases st with ⟨act, mode, sv, sf, se, snap, ch⟩
  cases act
  · simp [grow, List.Subset.refl]
  · cases mode
    case VERTEX =>
        refine ⟨?_, List.Subset.refl _, List.Subset.refl _⟩
        intro x hx
        exact foldl_mem_mono
          (fun acc b x h =>
            foldl_mem_mono (fun acc b x h => mem_sInsert_of_mem b h) _ acc x h)
          sv sv x hx
    case FACE =>
        refine ⟨List.Subset.refl _, ?_, List.Subset.refl _⟩
        intro x hx
        exact foldl_mem_mono
          (fun acc b x h =>
            foldl_mem_mono (fun acc b x h => mem_sInsert_of_mem b h) _ acc x h)
          sf sf x hx
    case EDGE =>
        simp only [grow]
        by_cases hall : (se.all fun ek =>
            (mapGet (buildCache mesh).edgeToVerts ek).isSome) = true
        · rw [if_pos hall]
          refine ⟨List.Subset.refl _, List.Subset.refl _, ?_⟩
          intro x hx
          refine foldl_mem_mono (fun acc b x h => ?_) _ se x hx
          split
          · exact h
          · split
            · exact List.mem_append_left _ h
            · exact h
        · rw [if_neg hall]
          exact ⟨List.Subset.refl _, List.Subset.refl _, List.Subset.refl _⟩

/-- C5: the selection after `shrink()` is contained in the selection before
it, in every mode: the keep-set is rebuilt from scratch by inserting only
scanned members of the current selection, and the two inactive sets are
unchanged.  With an empty active set the keep loop scans nothing, so the
result is again empty. -/
theorem C5_shrink_monotone (mesh : Mesh) (st : PState) :
    (shrink mesh st).selVerts ⊆ st.selVerts ∧
      (shrink mesh st).selFaces ⊆ st.selFaces ∧
      (shrink mesh st).selEdges ⊆ st.selEdges := by
  rcases st with ⟨act, mode, sv, sf, se, snap, ch⟩
  cases act
  · simp [shrink, List.Subset.refl]
  · cases mode
    case VERTEX =>
        refine ⟨?_, List.Subset.refl _, List.Subset.refl _⟩
        intro x hx
        exact foldl_sInsert_bounded sv _
          (fun acc v => by split <;> [exact Or.inl rfl; exact Or.inr rfl])
          sv [] (fun y hy => absurd hy (List.not_mem_nil y))
          (fun v hv => hv) x hx
    case FACE =>
        refine ⟨List.Subset.refl _, ?_, List.Subset.refl _⟩
        intro x hx
        exact foldl_sInsert_bounded sf _
          (fun acc v => by split <;> [exact Or.inl rfl; exact Or.inr rfl])
          sf [] (fun y hy => absurd hy (List.not_mem_nil y))
          (fun v hv => hv) x hx
    case EDGE =>
        simp only [shrink]
        by_cases hall : (se.all fun ek =>
            (mapGet (buildCache mesh).edgeToVerts ek).isSome) = true
        · rw [if_pos hall]
          refine ⟨List.Subset.refl _, List.Subset.refl _, ?_⟩
          intro x hx
          exact foldl_sInsert_bounded se _
            (fun acc v => by
              dsimp only
              split <;> [exact Or.inr rfl; exact Or.inl rfl])
            se [] (fun y hy => absurd hy (List.not_mem_nil y))
            (fun v hv => hv) x hx
        · rw [if_neg hall]
          exact ⟨List.Subset.refl _, List.Subset.refl _, List.Subset.refl _⟩

/-- The frame of an operation: the membership sets of the two modes other
than the active one of `s` coincide between `s` and `t`. -/
def inactiveSetsUnchanged (s t : PState) : Prop :=
  match s.mode with
  | .VERTEX => t.selFaces = s.selFaces ∧ t.selEdges = s.selEdges
  | .EDGE => t.selVerts = s.selVerts ∧ t.selFaces = s.selFaces
  | .FACE => t.selVerts = s.selVerts ∧ t.selEdges = s.selEdges

/-- C9: `grow`, `shrink`, `selectLinked` and a single-point pick only write
the membership set of the active mode; the other two sets are untouched for
every starting state and every pick argument. -/
theorem C9_frame_ops (mesh : Mesh) (st : PState) (faceId : ℕ)
    (inter : ℚ × ℚ × ℚ) (op : PickOp) :
    inactiveSetsUnchanged st (grow mesh st) ∧
      inactiveSetsUnchanged st (shrink mesh st) ∧
      inactiveSetsUnchanged st (selectLinked mesh st) ∧
      inactiveSetsUnchanged st (applyPick mesh faceId inter op st) := by
  rcases st with ⟨act, mode, sv, sf, se, snap, ch⟩
  refine ⟨?_, ?_, ?_, ?_⟩
  · cases act
    · cases mode <;> exact ⟨rfl, rfl⟩
    · cases mode
      case VERTEX => exact ⟨rfl, rfl⟩
      case FACE => exact ⟨rfl, rfl⟩
      case EDGE =>
          simp only [grow]
          by_cases hall : (se.all fun ek =>
              (mapGet (buildCache mesh).edgeToVerts ek).isSome) = true
          · rw [if_pos hall]; exact ⟨rfl, rfl⟩
          · rw [if_neg hall]; exact ⟨rfl, rfl⟩
  · cases act
    · cases mode <;> exact ⟨rfl, rfl⟩
    · cases mode
      case VERTEX => exact ⟨rfl, rfl⟩
      case FACE => exact ⟨rfl, rfl⟩
      case EDGE =>
          simp only [shrink]
          by_cases hall : (se.all fun ek =>
              (mapGet (buildCache mesh).edgeToVerts ek).isSome) = true
          · rw [if_pos hall]; exact ⟨rfl, rfl⟩
          · rw [if_neg hall]; exact ⟨rfl, rfl⟩
  · cases act
    · cases mode <;> exact ⟨rfl, rfl⟩
    · cases mode
      case VERTEX => cases sv <;> exact ⟨rfl, rfl⟩
      case FACE => cases sf <;> exact ⟨rfl, rfl⟩
      case EDGE =>
          cases se with
          | nil => exact ⟨rfl, rfl⟩
          | cons seed tl =>
              simp only [selectLinked]
              cases hm : mapGet (buildCache mesh).edgeToVerts seed with
              | none => exact ⟨rfl, rfl⟩
              | some val => exact ⟨rfl, rfl⟩
  · cases mode
    case FACE => exact ⟨rfl, rfl⟩
    case VERTEX =>
        simp only [applyPick]
        cases hv : nearestVertexInFace mesh faceId inter with
        | none => exact ⟨rfl, rfl⟩
        | some vid => exact ⟨rfl, rfl⟩
    case EDGE =>
        simp only [applyPick]
        cases he : nearestEdgeInFace mesh faceId inter with
        | none => exact ⟨rfl, rfl⟩
        | some ek => exact ⟨rfl, rfl⟩

/-- C10: the operator computed by `_computeOp` depends only on Ctrl, Cmd
and Shift — Ctrl or Cmd gives SUB, otherwise Shift gives ADD, otherwise
TOGGLE — and REPLACE is impossible, so an unmodified click toggles. -/
theorem C10_computeOp_total (isMac c m a s : Bool) :
    computeOp isMac ⟨c, m, a, s⟩ =
        (if c || m then PickOp.SUB
         else if s then PickOp.ADD else PickOp.TOGGLE) ∧
      computeOp isMac ⟨c, m, a, s⟩ ≠ PickOp.REPLACE := by
  cases isMac <;> cases c <;> cases m <;> cases a <;> cases s <;>
    exact ⟨rfl, by decide⟩

/-- C6: inverting a face selection twice over a fixed face count restores
it, provided the selection only holds faces of the mesh. -/
theorem C6_invert_involution (nbFaces : ℕ) (S : Finset ℕ)
    (h : S ⊆ Finset.range nbFaces) :
    invertSelection nbFaces (invertSelection nbFaces S) = S := by
  ext i
  simp only [invertSelection, Finset.mem_filter, Finset.mem_range]
  constructor
  · rintro ⟨hi, hnot⟩
    by_contra hS
    exact hnot ⟨hi, hS⟩
  · intro hS
    exact ⟨Finset.mem_range.mp (h hS), fun hc => hc.2 hS⟩

/-- Witness for C6 at a concrete input: three faces, face 1 selected. -/
theorem C6_invert_involution_witness :
    ({1} : Finset ℕ) ⊆ Finset.range 3 ∧
      invertSelection 3 (invertSelection 3 {1}) = {1} :=
  ⟨by decide, C6_invert_involution 3 {1} (by decide)⟩

/-- Mask synchronization written as an explicit structure literal. -/
theorem applyMask_literal (mesh : Mesh) (act : Bool) (mode : Mode)
    (sv sf : List ℕ) (se : List (ℕ × ℕ)) (snap : Option (List FVal))
    (ch : List FVal) :
    applySelectionToMask mesh ⟨act, mode, sv, sf, se, snap, ch⟩ =
      ⟨act, mode, sv, sf, se, snap,
        (applySelectionToMask mesh ⟨act, mode, sv, sf, se, snap, ch⟩).channel⟩ :=
  rfl

/-- Unfolding `selectLinked` on an active VERTEX state with a non-empty
selection: the set is replaced by the flood fill from its first element. -/
theorem selectLinked_active_vertex (mesh : Mesh) (seed : ℕ) (tl sf : List ℕ)
    (se : List (ℕ × ℕ)) (snap : Option (List FVal)) (ch : List FVal) :
    selectLinked mesh ⟨true, .VERTEX, seed :: tl, sf, se, snap, ch⟩ =
      applySelectionToMask mesh
        ⟨true, .VERTEX,
          (dfsRun (vertexNeighbors mesh) (dfsFuel mesh) [seed] [seed]),
          sf, se, snap, ch⟩ :=
  rfl

/-- Unfolding `selectLinked` on an active FACE state with a non-empty
selection. -/
theorem selectLinked_active_face (mesh : Mesh) (seed : ℕ) (tl sv : List ℕ)
    (se : List (ℕ × ℕ)) (snap : Option (List FVal)) (ch : List FVal) :
    selectLinked mesh ⟨true, .FACE, sv, seed :: tl, se, snap, ch⟩ =
      applySelectionToMask mesh
        ⟨true, .FACE, sv,
          (dfsRun (faceNeighbors (buildCache mesh)) (dfsFuel mesh)
            [seed] [seed]),
          se, snap, ch⟩ :=
  rfl

/-- Unfolding `selectLinked` on an active EDGE state with a non-empty
selection: the result hinges on the endpoint lookup of the seed. -/
theorem selectLinked_active_edge (mesh : Mesh) (seed : ℕ × ℕ)
    (tl : List (ℕ × ℕ)) (sv sf : List ℕ) (snap : Option (List FVal))
    (ch : List FVal) :
    selectLinked mesh ⟨true, .EDGE, sv, sf, seed :: tl, snap, ch⟩ =
      (match mapGet (buildCache mesh).edgeToVerts seed with
       | none => (⟨true, .EDGE, sv, sf, seed :: tl, snap, ch⟩ : PState)
       | some _ =>
           applySelectionToMask mesh
             ⟨true, .EDGE, sv, sf,
               (dfsRun
                 (edgeNeighbors (buildCache mesh) (buildV2E (buildCache mesh)))
                 (dfsFuel mesh) [seed] [seed]),
               snap, ch⟩) :=
  rfl

/-- EDGE-mode `selectLinked` with a seed absent from the edge cache throws
while destructuring and leaves the state unchanged. -/
theorem selectLinked_active_edge_none (mesh : Mesh) (seed : ℕ × ℕ)
    (tl : List (ℕ × ℕ)) (sv sf : List ℕ) (snap : Option (List FVal))
    (ch : List FVal)
    (hm : mapGet (buildCache mesh).edgeToVerts seed = none) :
    selectLinked mesh ⟨true, .EDGE, sv, sf, seed :: tl, snap, ch⟩ =
      ⟨true, .EDGE, sv, sf, seed :: tl, snap, ch⟩ := by
  rw [selectLinked_active_edge, hm]

/-- EDGE-mode `selectLinked` with a cached seed floods from that seed. -/
theorem selectLinked_active_edge_some (mesh : Mesh) (seed : ℕ × ℕ)
    (tl : List (ℕ × ℕ)) (sv sf : List ℕ) (snap : Option (List FVal))
    (ch : List FVal) (val : ℕ × ℕ)
    (hm : mapGet (buildCache mesh).edgeToVerts seed = some val) :
    selectLinked mesh ⟨true, .EDGE, sv, sf, seed :: tl, snap, ch⟩ =
      applySelectionToMask mesh
        ⟨true, .EDGE, sv, sf,
          (dfsRun
            (edgeNeighbors (buildCache mesh) (buildV2E (buildCache mesh)))
            (dfsFuel mesh) [seed] [seed]),
          snap, ch⟩ := by
  rw [selectLinked_active_edge, hm]

/-- The active mode's membership set is empty. -/
def activeSelectionEmpty (st : PState) : Prop :=
  match st.mode with
  | .VERTEX => st.selVerts = []
  | .EDGE => st.selEdges = []
  | .FACE => st.selFaces = []

/-- C3: `selectLinked` is idempotent as a state transformer, for every
state whose channel has the mesh's vertex-count length: on a non-empty set
the second run re-seeds from the head of the first run's visited list —
which is the original seed, since the flood fill only appends — and
recomputes the identical flood fill; and on an empty active set the
operation is a no-op (the source returns before touching any state). -/
theorem C3_selectLinked_idempotent (mesh : Mesh) (st : PState)
    (h : st.channel.length = mesh.nbVertices) :
    selectLinked mesh (selectLinked mesh st) = selectLinked mesh st ∧
      (activeSelectionEmpty st → selectLinked mesh st = st) := by
  constructor
  case right =>
    rcases st with ⟨act, mode, sv, sf, se, snap, ch⟩
    cases act
    · intro _
      rfl
    · cases mode
      case VERTEX =>
          intro he
          have he2 : sv = [] := he
          subst he2
          rfl
      case FACE =>
          intro he
          have he2 : sf = [] := he
          subst he2
          rfl
      case EDGE =>
          intro he
          have he2 : se = [] := he
          subst he2
          rfl
  case left =>
    rcases st with ⟨act, mode, sv, sf, se, snap, ch⟩
    cases act
    · rfl
    · cases mode
      case VERTEX =>
          cases sv with
          | nil => rfl
          | cons seed tl =>
              obtain ⟨t, ht0⟩ := dfsRun_extend (vertexNeighbors mesh)
                (dfsFuel mesh) [seed] [seed]
              have ht : dfsRun (vertexNeighbors mesh) (dfsFuel mesh)
                  [seed] [seed] = seed :: t := ht0
              rw [selectLinked_active_vertex, ht]
              conv_lhs => rw [applyMask_literal]
              rw [selectLinked_active_vertex, ht, ← applyMask_literal]
              exact applyMask_idem mesh ⟨true, .VERTEX, seed :: t, sf, se,
                snap, ch⟩ h
      case FACE =>
          cases sf with
          | nil => rfl
          | cons seed tl =>
              obtain ⟨t, ht0⟩ := dfsRun_extend (faceNeighbors (buildCache mesh))
                (dfsFuel mesh) [seed] [seed]
              have ht : dfsRun (faceNeighbors (buildCache mesh)) (dfsFuel mesh)
                  [seed] [seed] = seed :: t := ht0
              rw [selectLinked_active_face, ht]
              conv_lhs => rw [applyMask_literal]
              rw [selectLinked_active_face, ht, ← applyMask_literal]
              exact applyMask_idem mesh ⟨true, .FACE, sv, seed :: t, se,
                snap, ch⟩ h
      case EDGE =>
          cases se with
          | nil => rfl
          | cons seed tl =>
              cases hm : mapGet (buildCache mesh).edgeToVerts seed with
              | none =>
                  have hstep := selectLinked_active_edge_none mesh seed tl
                    sv sf snap ch hm
                  rw [hstep]
                  exact hstep
              | some val =>
                  obtain ⟨t, ht0⟩ := dfsRun_extend
                    (edgeNeighbors (buildCache mesh) (buildV2E (buildCache mesh)))
                    (dfsFuel mesh) [seed] [seed]
                  have ht : dfsRun
                      (edgeNeighbors (buildCache mesh) (buildV2E (buildCache mesh)))
                      (dfsFuel mesh) [seed] [seed] = seed :: t := ht0
                  rw [selectLinked_active_edge_some mesh seed tl sv sf snap ch
                    val hm, ht]
                  conv_lhs => rw [applyMask_literal]
                  rw [selectLinked_active_edge_some mesh seed t sv sf snap _
                    val hm, ht, ← applyMask_literal]
                  exact applyMask_idem mesh ⟨true, .EDGE, sv, sf, seed :: t,
                    snap, ch⟩ h

/-! ### Snapshot and channel-length preservation of the mutations -/

/-- `grow` never touches the snapshot and keeps the channel length. -/
theorem grow_frame (mesh : Mesh) (st : PState) :
    (grow mesh st).maskSnapshot = st.maskSnapshot ∧
      (grow mesh st).channel.length = st.channel.length := by
  rcases st with ⟨act, mode, sv, sf, se, snap, ch⟩
  cases act
  · exact ⟨rfl, rfl⟩
  · cases mode
    case VERTEX => exact ⟨rfl, applyMask_channel_length mesh _⟩
    case FACE => exact ⟨rfl, applyMask_channel_length mesh _⟩
    case EDGE =>
        simp only [grow]
        by_cases hall : (se.all fun ek =>
            (mapGet (buildCache mesh).edgeToVerts ek).isSome) = true
        · rw [if_pos hall]; exact ⟨rfl, applyMask_channel_length mesh _⟩
        · rw [if_neg hall]; exact ⟨rfl, rfl⟩

/-- `shrink` never touches the snapshot and keeps the channel length. -/
theorem shrink_frame (mesh : Mesh) (st : PState) :
    (shrink mesh st).maskSnapshot = st.maskSnapshot ∧
      (shrink mesh st).channel.length = st.channel.length := by
  rcases st with ⟨act, mode, sv, sf, se, snap, ch⟩
  cases act
  · exact ⟨rfl, rfl⟩
  · cases mode
    case VERTEX => exact ⟨rfl, applyMask_channel_length mesh _⟩
    case FACE => exact ⟨rfl, applyMask_channel_length mesh _⟩
    case EDGE =>
        simp only [shrink]
        by_cases hall : (se.all fun ek =>
            (mapGet (buildCache mesh).edgeToVerts ek).isSome) = true
        · rw [if_pos hall]; exact ⟨rfl, applyMask_channel_length mesh _⟩
        · rw [if_neg hall]; exact ⟨rfl, rfl⟩

/-- `selectLinked` never touches the snapshot and keeps the channel
length. -/
theorem selectLinked_frame (mesh : Mesh) (st : PState) :
    (selectLinked mesh st).maskSnapshot = st.maskSnapshot ∧
      (selectLinked mesh st).channel.length = st.channel.length := by
  rcases st with ⟨act, mode, sv, sf, se, snap, ch⟩
  cases act
  · exact ⟨rfl, rfl⟩
  · cases mode
    case VERTEX =>
        cases sv with
        | nil => exact ⟨rfl, rfl⟩
        | cons seed tl => exact ⟨rfl, applyMask_channel_length mesh _⟩
    case FACE =>
        cases sf with
        | nil => exact ⟨rfl, rfl⟩
        | cons seed tl => exact ⟨rfl, applyMask_channel_length mesh _⟩
    case EDGE =>
        cases se with
        | nil => exact ⟨rfl, rfl⟩
        | cons seed tl =>
            simp only [selectLinked]
            cases hm : mapGet (buildCache mesh).edgeToVerts seed with
            | none => exact ⟨rfl, rfl⟩
            | some val => exact ⟨rfl, applyMask_channel_length mesh _⟩

/-- `_applyPick` never touches the snapshot and keeps the channel length. -/
theorem applyPick_frame (mesh : Mesh) (faceId : ℕ) (inter : ℚ × ℚ × ℚ)
    (op : PickOp) (st : PState) :
    (applyPick mesh faceId inter op st).maskSnapshot = st.maskSnapshot ∧
      (applyPick mesh faceId inter op st).channel.length =
        st.channel.length := by
  rcases st with ⟨act, mode, sv, sf, se, snap, ch⟩
  cases mode
  case FACE => exact ⟨rfl, applyMask_channel_length mesh _⟩
  case VERTEX =>
      simp only [applyPick]
      cases hv : nearestVertexInFace mesh faceId inter with
      | none => exact ⟨rfl, rfl⟩
      | some vid => exact ⟨rfl, applyMask_channel_length mesh _⟩
  case EDGE =>
      simp only [applyPick]
      cases he : nearestEdgeInFace mesh faceId inter with
      | none => exact ⟨rfl, rfl⟩
      | some ek => exact ⟨rfl, applyMask_channel_length mesh _⟩

/-- Every selection mutation leaves the snapshot alone and keeps the
channel length. -/
theorem applyMutation_frame (mesh : Mesh) (st : PState) (m : Mutation) :
    (applyMutation mesh st m).maskSnapshot = st.maskSnapshot ∧
      (applyMutation mesh st m).channel.length = st.channel.length := by
  cases m with
  | setModeM md => exact ⟨rfl, rfl⟩
  | clearM => exact ⟨rfl, applyMask_channel_length mesh _⟩
  | growM => exact grow_frame mesh st
  | shrinkM => exact shrink_frame mesh st
  | selectLinkedM => exact selectLinked_frame mesh st
  | pickM faceId inter op => exact applyPick_frame mesh faceId inter op st

/-- A whole mutation sequence leaves the snapshot alone and keeps the
channel length. -/
theorem applyMutations_frame (mesh : Mesh) (ms : List Mutation) :
    ∀ (st : PState),
      (applyMutations mesh ms st).maskSnapshot = st.maskSnapshot ∧
        (applyMutations mesh ms st).channel.length = st.channel.length := by
  induction ms with
  | nil => intro st; exact ⟨rfl, rfl⟩
  | cons m t ih =>
      intro st
      obtain ⟨h1, h2⟩ := applyMutation_frame mesh st m
      obtain ⟨h3, h4⟩ := ih (applyMutation mesh st m)
      exact ⟨h3.trans h1, h4.trans h2⟩

/-- `restoreSnapshot` in the presence of a snapshot, as an explicit write
loop over the current vertex count. -/
theorem restoreSnapshot_some (mesh : Mesh) (st : PState) (snap : List FVal)
    (hs : st.maskSnapshot = some snap) :
    restoreSnapshot mesh st =
      { st with channel := ((List.range mesh.nbVertices).foldl
          (fun c i => c.set i ((snap.get? i).getD FVal.nan)) st.channel) } := by
  rcases st with ⟨act, mode, sv, sf, se, snap0, ch⟩
  cases hs
  rfl

/-- C1 (amended): activating from an inactive state, running any sequence
of selection mutations, then restoring, leaves the scalar channel equal to
the CLAMPED pre-activation values — `clamp01` applied slotwise — because
`_snapshotMask` clamps each copied value to `[0,1]`.  The channel is
byte-identical to the pre-activation state exactly when every pre-activation
value is a fixed point of the clamp (in particular whenever all values
already lie in `[0,1]`). -/
theorem C1_restore_clamped (mesh : Mesh) (st : PState) (ms : List Mutation)
    (hact : st.active = false)
    (hlen : st.channel.length = mesh.nbVertices) :
    (restoreSnapshot mesh
        (applyMutations mesh ms (activate mesh st))).channel =
      st.channel.map clamp01 := by
  rcases st with ⟨act, mode, sv, sf, se, snap0, ch⟩
  subst hact
  have hch : ch.length = mesh.nbVertices := hlen
  have hframe := applyMutations_frame mesh ms
    (activate mesh ⟨false, mode, sv, sf, se, snap0, ch⟩)
  have hsnap : (applyMutations mesh ms
      (activate mesh ⟨false, mode, sv, sf, se, snap0, ch⟩)).maskSnapshot =
      some (snapshotMask mesh ch) := hframe.1
  have hlen2 : (applyMutations mesh ms
      (activate mesh ⟨false, mode, sv, sf, se, snap0, ch⟩)).channel.length =
      mesh.nbVertices := by
    rw [hframe.2]
    exact (applyMask_channel_length mesh _).trans hch
  rw [restoreSnapshot_some mesh _ (snapshotMask mesh ch) hsnap]
  apply List.ext_get?
  intro k
  rw [foldl_range_set_get]
  by_cases hk : k < mesh.nbVertices
  · have hk2 : k < (applyMutations mesh ms
        (activate mesh ⟨false, mode, sv, sf, se, snap0, ch⟩)).channel.length := by
      rw [hlen2]; exact hk
    rw [if_pos ⟨hk, hk2⟩]
    have hkc : k < ch.length := by rw [hch]; exact hk
    have hsnapk : (snapshotMask mesh ch).get? k =
        some (clamp01 ((ch.get? k).getD FVal.nan)) := by
      rw [snapshotMask, List.get?_map, List.get?_range hk]
      rfl
    rw [hsnapk, List.get?_eq_get hkc, List.get?_map, List.get?_eq_get hkc]
    rfl
  · rw [if_neg (fun hc => hk hc.1)]
    have hn1 : (applyMutations mesh ms
        (activate mesh ⟨false, mode, sv, sf, se, snap0, ch⟩)).channel.get? k =
        none := List.get?_len_le (by rw [hlen2]; omega)
    have hn2 : (ch.map clamp01).get? k = none :=
      List.get?_len_le (by rw [List.length_map]; omega)
    rw [hn1, hn2]

/-- A one-vertex mesh used for the snapshot round-trip analysis. -/
def meshOneV : Mesh :=
  ⟨1, 0, [], [0, 0, 0], [], []⟩

/-- An inactive state whose scalar channel holds the out-of-range value 2
before activation. -/
def stClamp : PState :=
  ⟨false, Mode.FACE, [], [], [], none, [FVal.num 2]⟩

/-- C1 counterexample: with a pre-activation channel value of 2 (vertex
count unchanged, no intervening commit), `activate` then `restore` yields 1,
not the byte-identical original 2 — `_snapshotMask` clamps on capture. -/
theorem C1_roundtrip_counterexample :
    stClamp.channel = [FVal.num 2] ∧
      (restoreSnapshot meshOneV (activate meshOneV stClamp)).channel =
        [FVal.num 1] := by
  exact ⟨rfl, by decide⟩

/-- Witness for the amended C1 at a concrete input, including one mutation
between activation and restore. -/
theorem C1_restore_clamped_witness :
    stClamp.active = false ∧
      stClamp.channel.length = meshOneV.nbVertices ∧
      (restoreSnapshot meshOneV (applyMutations meshOneV [Mutation.growM]
          (activate meshOneV stClamp))).channel =
        stClamp.channel.map clamp01 :=
  ⟨rfl, by decide,
    C1_restore_clamped meshOneV stClamp [Mutation.growM] rfl (by decide)⟩

/-- A two-vertex mesh current at restore time. -/
def meshTwoV : Mesh :=
  ⟨2, 0, [], [0, 0, 0, 0, 0, 0], [], []⟩

/-- A state holding a one-vertex snapshot (captured before the vertex count
grew to two) and a two-slot channel. -/
def stStale : PState :=
  ⟨true, Mode.FACE, [], [], [], some [FVal.num 0],
    [FVal.num 0, FVal.num 1]⟩

/-- C2 at its failing input: restoring a 1-entry snapshot on a 2-vertex
mesh does NOT skip the out-of-range index 1 — the loop runs to the current
vertex count, reads past the snapshot (`undefined`) and stores `NaN` into
slot 1, clobbering its previous value 1.  No exception is raised and no
write lands outside the channel, but the spec's required skip does not
happen. -/
theorem C2_restore_mismatch_writes_nan :
    (restoreSnapshot meshTwoV stStale).channel = [FVal.num 0, FVal.nan] ∧
      stStale.channel.get? 1 = some (FVal.num 1) := by
  exact ⟨by decide, by decide⟩

/-- Two triangles sharing edge (0,2): the standard quad split. -/
def meshTwoTri : Mesh :=
  ⟨4, 2,
    [0, 1, 2, TRI_INDEX, 0, 2, 3, TRI_INDEX],
    [0, 0, 0, 1, 0, 0, 1, 1, 0, 0, 1, 0],
    [0, 3, 3, 2, 5, 3, 8, 2],
    [1, 2, 3, 0, 2, 0, 1, 3, 0, 2]⟩

/-- An active FACE-mode state over `meshTwoTri` with face 0 selected. -/
def stLinked : PState :=
  ⟨true, Mode.FACE, [], [0], [], none,
    [FVal.num 0, FVal.num 0, FVal.num 0, FVal.num 0]⟩

/-- Witness for C3 at a concrete input: flooding from face 0 over the
two-triangle mesh, twice, equals flooding once, and an emptied selection
makes the operation a no-op. -/
theorem C3_selectLinked_idempotent_witness :
    stLinked.channel.length = meshTwoTri.nbVertices ∧
      (selectLinked meshTwoTri (selectLinked meshTwoTri stLinked) =
          selectLinked meshTwoTri stLinked ∧
        (activeSelectionEmpty stLinked →
          selectLinked meshTwoTri stLinked = stLinked)) :=
  ⟨by decide, C3_selectLinked_idempotent meshTwoTri stLinked (by decide)⟩

/-- The zeroing pass of `_applySelectionToMask`, seen through `get?`. -/
theorem zero_fold_get (n : ℕ) (c : List FVal) (k : ℕ) :
    ((List.range n).foldl (fun c i => c.set i (FVal.num 0)) c).get? k =
      if k < n ∧ k < c.length then some (FVal.num 0) else c.get? k := by
  rw [show (fun (c : List FVal) i => c.set i (FVal.num 0)) =
        (fun (c : List FVal) i => c.set i ((fun _ => FVal.num 0) i)) from rfl,
      foldl_range_set_get]

/-- The zeroing pass keeps the channel length. -/
theorem zero_fold_length (n : ℕ) (c : List FVal) :
    ((List.range n).foldl (fun c i => c.set i (FVal.num 0)) c).length =
      c.length :=
  foldl_length_inv _ (fun c b => List.length_set c b _) _ _

/-- The characteristic predicate of the claim: vertex `i` is driven to 1 by
the active mode's selection — it is directly selected (VERTEX), a corner of
a selected face (FACE), or an endpoint of a selected edge (EDGE). -/
def litVertex (mesh : Mesh) (st : PState) (i : ℕ) : Bool :=
  match st.mode with
  | .VERTEX => decide (i ∈ st.selVerts)
  | .FACE => st.selFaces.any (fun f => decide (i ∈ maskCorners mesh f))
  | .EDGE => st.selEdges.any
      (fun ek => decide (i ∈ edgeLightVerts (buildCache mesh) ek))

/-- C8: after mask synchronization the scalar channel is the characteristic
function of the active mode's selection: slot `i` (any vertex of the mesh)
holds 1 exactly when `litVertex` holds, and 0 otherwise.  The right-hand
side mentions only the active mode's set, so the two inactive sets cannot
influence the channel. -/
theorem C8_mask_characteristic (mesh : Mesh) (st : PState) (i : ℕ)
    (hlen : st.channel.length = mesh.nbVertices)
    (hi : i < mesh.nbVertices) :
    (applySelectionToMask mesh st).channel.get? i =
      some (if litVertex mesh st i then FVal.num 1 else FVal.num 0) := by
  rcases st with ⟨act, mode, sv, sf, se, snap, ch⟩
  have hch : ch.length = mesh.nbVertices := hlen
  have hic : i < ch.length := by rw [hch]; exact hi
  cases mode
  case VERTEX =>
      show ((sv.foldl (fun c v => c.set v (FVal.num 1))
          ((List.range mesh.nbVertices).foldl
            (fun c i => c.set i (FVal.num 0)) ch))).get? i = _
      rw [foldl_set_one_get, zero_fold_length, zero_fold_get]
      by_cases hm : i ∈ sv <;> simp [litVertex, hm, hic, hi]
  case FACE =>
      show ((sf.foldl (fun c f => (maskCorners mesh f).foldl
            (fun c v => c.set v (FVal.num 1)) c)
          ((List.range mesh.nbVertices).foldl
            (fun c i => c.set i (FVal.num 0)) ch))).get? i = _
      rw [foldl_light_get, zero_fold_length, zero_fold_get]
      by_cases hm : ∃ x ∈ sf, i ∈ maskCorners mesh x <;>
        simp [litVertex, List.any_eq_true, hm, hic, hi]
  case EDGE =>
      show ((se.foldl (fun c ek => (edgeLightVerts (buildCache mesh) ek).foldl
            (fun c v => c.set v (FVal.num 1)) c)
          ((List.range mesh.nbVertices).foldl
            (fun c i => c.set i (FVal.num 0)) ch))).get? i = _
      rw [foldl_light_get, zero_fold_length, zero_fold_get]
      by_cases hm : ∃ x ∈ se, i ∈ edgeLightVerts (buildCache mesh) x <;>
        simp [litVertex, List.any_eq_true, hm, hic, hi]

/-- Witness for C8 at a concrete input: vertex 1 of the two-triangle mesh
is a corner of the selected face 0, so its slot reads 1. -/
theorem C8_mask_characteristic_witness :
    stLinked.channel.length = meshTwoTri.nbVertices ∧
      (1 : ℕ) < meshTwoTri.nbVertices ∧
      (applySelectionToMask meshTwoTri stLinked).channel.get? 1 =
        some (if litVertex meshTwoTri stLinked 1 then FVal.num 1
              else FVal.num 0) :=
  ⟨by decide, by decide,
    C8_mask_characteristic meshTwoTri stLinked 1 (by decide) (by decide)⟩

/-! ### The VERTEX-mode pick resolves to the first closest corner -/

/-- An in-range `get?` read agrees with `getD`. -/
theorem get_eq_some_getD (l : List α) (i : ℕ) (d : α) (h : i < l.length) :
    l.get? i = some (l.getD i d) := by
  rw [List.get?_eq_get h]
  exact congrArg some (List.getD_eq_get l d h).symm

/-- The squared distance from the intersection point to vertex `v`, read
with in-range coordinate accesses. -/
def sqDistToInter (mesh : Mesh) (inter : ℚ × ℚ × ℚ) (v : ℕ) : ℚ :=
  sqDist3
    (mesh.vertices.getD (3 * v) 0, mesh.vertices.getD (3 * v + 1) 0,
      mesh.vertices.getD (3 * v + 2) 0) inter

/-- When all three coordinates are in range, `vertPos` succeeds with the
`getD` readings. -/
theorem vertPos_of_lt (mesh : Mesh) (v : ℕ)
    (h : 3 * v + 2 < mesh.vertices.length) :
    vertPos mesh v =
      some (mesh.vertices.getD (3 * v) 0, mesh.vertices.getD (3 * v + 1) 0,
        mesh.vertices.getD (3 * v + 2) 0) := by
  rw [vertPos,
    get_eq_some_getD mesh.vertices (3 * v) 0 (by omega),
    get_eq_some_getD mesh.vertices (3 * v + 1) 0 (by omega),
    get_eq_some_getD mesh.vertices (3 * v + 2) 0 h]

/-- The specification-side selector, written from the claim's words: the
element of minimum measure, with ties resolved to the first element in
enumeration order. -/
def argminFirst (d : α → ℚ) : List α → Option α
  | [] => none
  | x :: xs =>
      match argminFirst d xs with
      | none => some x
      | some y => if d x ≤ d y then some x else some y

/-- Absorbing the first comparison of `argminFirst` into the head. -/
theorem argminFirst_cons_cons (d : α → ℚ) (b x : α) (t : List α) :
    argminFirst d (b :: x :: t) =
      argminFirst d ((if d x < d b then x else b) :: t) := by
  cases hA : argminFirst d t with
  | none =>
      simp only [argminFirst, hA]
      split_ifs <;> first | rfl | (exfalso; linarith)
  | some y =>
      by_cases hxy : d x ≤ d y
      · simp only [argminFirst, hA, if_pos hxy]
        split_ifs <;> first | rfl | (exfalso; linarith)
      · simp only [argminFirst, hA, if_neg hxy]
        split_ifs <;> first | rfl | (exfalso; linarith)

/-- `argminFirst` of a non-empty list as a strict-comparison fold: the
later element wins only when strictly smaller, which is exactly the
first-minimum rule. -/
theorem argminFirst_eq_foldl (d : α → ℚ) :
    ∀ (l : List α) (b : α),
      argminFirst d (b :: l) =
        some (l.foldl (fun bv v => if d v < d bv then v else bv) b) := by
  intro l
  induction l with
  | nil => intro b; rfl
  | cons x t ih =>
      intro b
      rw [List.foldl_cons, ← ih, argminFirst_cons_cons]

/-- The loop body on a resolvable corner compares exact squared
distances. -/
theorem nearestVertexStep_some (mesh : Mesh) (inter : ℚ × ℚ × ℚ)
    (b : ℕ × ℚ) (v : ℕ) (h : 3 * v + 2 < mesh.vertices.length) :
    nearestVertexStep mesh inter (some b) (some v) =
      if sqDistToInter mesh inter v < b.2
      then some (v, sqDistToInter mesh inter v) else some b := by
  rw [nearestVertexStep, vertPos_of_lt mesh v h]
  rfl

/-- The loop body on the first resolvable corner initializes the running
minimum. -/
theorem nearestVertexStep_first (mesh : Mesh) (inter : ℚ × ℚ × ℚ) (v : ℕ)
    (h : 3 * v + 2 < mesh.vertices.length) :
    nearestVertexStep mesh inter none (some v) =
      some (v, sqDistToInter mesh inter v) := by
  rw [nearestVertexStep, vertPos_of_lt mesh v h]
  rfl

/-- The `_nearestVertexInFace` fold with a running best computes the
strict-comparison fold together with its distance. -/
theorem nearestFold_aux (mesh : Mesh) (inter : ℚ × ℚ × ℚ) :
    ∀ (l : List ℕ) (b : ℕ),
      (∀ v ∈ l, 3 * v + 2 < mesh.vertices.length) →
      (l.map some).foldl (nearestVertexStep mesh inter)
          (some (b, sqDistToInter mesh inter b)) =
        some ((l.foldl (fun bv v =>
            if sqDistToInter mesh inter v < sqDistToInter mesh inter bv
            then v else bv) b),
          sqDistToInter mesh inter (l.foldl (fun bv v =>
            if sqDistToInter mesh inter v < sqDistToInter mesh inter bv
            then v else bv) b)) := by
  intro l
  induction l with
  | nil => intro b _; rfl
  | cons v t ih =>
      intro b hl
      rw [List.map_cons, List.foldl_cons, List.foldl_cons,
        nearestVertexStep_some mesh inter _ v (hl v (List.mem_cons_self v t))]
      by_cases hc : sqDistToInter mesh inter v < sqDistToInter mesh inter b
      · rw [if_pos hc, if_pos hc]
        exact ih v (fun w hw => hl w (List.mem_cons_of_mem v hw))
      · rw [if_neg hc, if_neg hc]
        exact ih b (fun w hw => hl w (List.mem_cons_of_mem v hw))

/-- Under an in-range face read, the `Option` corner slots of the pick are
exactly the cache's corner list. -/
theorem cornerIdsOpt_eq_map (mesh : Mesh) (faceId : ℕ)
    (hlen : mesh.faces.length = 4 * mesh.nbFaces)
    (hface : faceId < mesh.nbFaces) :
    cornerIdsOpt mesh faceId = (faceIds mesh faceId).map some := by
  have e0 : mesh.faces.get? (4 * faceId) =
      some (mesh.faces.getD (4 * faceId) 0) :=
    get_eq_some_getD _ _ _ (by omega)
  have e1 : mesh.faces.get? (4 * faceId + 1) =
      some (mesh.faces.getD (4 * faceId + 1) 0) :=
    get_eq_some_getD _ _ _ (by omega)
  have e2 : mesh.faces.get? (4 * faceId + 2) =
      some (mesh.faces.getD (4 * faceId + 2) 0) :=
    get_eq_some_getD _ _ _ (by omega)
  have e3 : mesh.faces.get? (4 * faceId + 3) =
      some (mesh.faces.getD (4 * faceId + 3) 0) :=
    get_eq_some_getD _ _ _ (by omega)
  simp only [cornerIdsOpt, faceIds]
  rw [e0, e1, e2, e3]
  by_cases h3 : mesh.faces.getD (4 * faceId + 3) 0 = TRI_INDEX
  · rw [if_neg (fun hne => hne (congrArg some h3)),
      if_neg (fun hne => hne h3)]
    rfl
  · rw [if_pos (fun he => h3 (Option.some.inj he)), if_pos h3]
    rfl

/-- The corner list of a face always starts with the first corner slot. -/
theorem faceIds_ne_nil (mesh : Mesh) (faceId : ℕ) :
    faceIds mesh faceId ≠ [] := by
  rw [faceIds]
  split <;> simp

/-- C7: in VERTEX mode the pick resolves to the corner of the hit face
with minimum squared Euclidean distance to the intersection point, ties
going to the first corner in enumeration order — `argminFirst` written from
the claim — provided the face id and the corner coordinates are in range
for the mesh buffers. -/
theorem C7_nearest_vertex_first_argmin (mesh : Mesh) (faceId : ℕ)
    (inter : ℚ × ℚ × ℚ)
    (hlen : mesh.faces.length = 4 * mesh.nbFaces)
    (hface : faceId < mesh.nbFaces)
    (hpos : ∀ v ∈ faceIds mesh faceId, 3 * v + 2 < mesh.vertices.length) :
    nearestVertexInFace mesh faceId inter =
      argminFirst (sqDistToInter mesh inter) (faceIds mesh faceId) := by
  rw [nearestVertexInFace, cornerIdsOpt_eq_map mesh faceId hlen hface]
  cases hc : faceIds mesh faceId with
  | nil => exact absurd hc (faceIds_ne_nil mesh faceId)
  | cons b l =>
      rw [hc] at hpos
      rw [List.map_cons, List.foldl_cons,
        nearestVertexStep_first mesh inter b (hpos b (List.mem_cons_self b l)),
        nearestFold_aux mesh inter l b
          (fun w hw => hpos w (List.mem_cons_of_mem b hw)),
        argminFirst_eq_foldl]
      rfl

/-- A single triangle with integer coordinates. -/
def meshTri : Mesh :=
  ⟨3, 1, [0, 1, 2, TRI_INDEX], [0, 0, 0, 10, 0, 0, 0, 10, 0], [], []⟩

/-- Witness for C7 at a concrete input: the intersection point (9,1,0) on
the triangle is closest to corner 1. -/
theorem C7_nearest_vertex_first_argmin_witness :
    meshTri.faces.length = 4 * meshTri.nbFaces ∧
      0 < meshTri.nbFaces ∧
      (∀ v ∈ faceIds meshTri 0, 3 * v + 2 < meshTri.vertices.length) ∧
      nearestVertexInFace meshTri 0 (9, 1, 0) =
        argminFirst (sqDistToInter meshTri (9, 1, 0)) (faceIds meshTri 0) :=
  ⟨by decide, by decide, by decide,
    C7_nearest_vertex_first_argmin meshTri 0 (9, 1, 0) (by decide) (by decide)
      (by decide)⟩
